import Mathlib

/-!
Verification of the magenta virtual-console subsystem (`vc.c`, the console
manager of the gfxconsole driver).  The definitions below are a shallow
embedding of the C source: bytes and machine integers are modelled as `Nat`
(with explicit wrap where it matters), fallible operations return a status
enum, and the stateful registry operations are pure functions on an explicit
`Registry` state.
-/

namespace Vc

/-- Status codes used by the driver (NO_ERROR, ERR_INVALID_ARGS,
ERR_SHOULD_WAIT, ...). -/
inductive MxStatus where
  | ok
  | invalidArgs
  | shouldWait
deriving DecidableEq, Repr

/-- The modifier bitmask kept by each keyboard input thread.  The C code
stores it as an `int` with bits MOD_LSHIFT, MOD_RSHIFT, MOD_LALT, MOD_RALT,
MOD_LCTRL, MOD_RCTRL; a structure of six booleans is an exact model. -/
structure Modifiers where
  lshift : Bool
  rshift : Bool
  lalt : Bool
  ralt : Bool
  lctrl : Bool
  rctrl : Bool
deriving DecidableEq, Repr

/-- `modifiers & MOD_SHIFT` (MOD_SHIFT = MOD_LSHIFT | MOD_RSHIFT). -/
def Modifiers.shift (m : Modifiers) : Bool := m.lshift || m.rshift

/-- `modifiers & MOD_ALT` (MOD_ALT = MOD_LALT | MOD_RALT). -/
def Modifiers.alt (m : Modifiers) : Bool := m.lalt || m.ralt

/-- `modifiers & MOD_CTRL` (MOD_CTRL = MOD_LCTRL | MOD_RCTRL). -/
def Modifiers.ctrl (m : Modifiers) : Bool := m.lctrl || m.rctrl

/-- The all-clear modifier state. -/
def noMods : Modifiers := ⟨false, false, false, false, false, false⟩

/-- USB HID usage ids used by the driver (hid/usages.h). -/
def HID_USAGE_KEY_ENTER : Nat := 40
def HID_USAGE_KEY_ESC : Nat := 41
def HID_USAGE_KEY_BACKSPACE : Nat := 42
def HID_USAGE_KEY_TAB : Nat := 43
def HID_USAGE_KEY_F1 : Nat := 58
def HID_USAGE_KEY_F10 : Nat := 67
def HID_USAGE_KEY_F11 : Nat := 68
def HID_USAGE_KEY_HOME : Nat := 74
def HID_USAGE_KEY_PAGEUP : Nat := 75
def HID_USAGE_KEY_DELETE : Nat := 76
def HID_USAGE_KEY_END : Nat := 77
def HID_USAGE_KEY_PAGEDOWN : Nat := 78
def HID_USAGE_KEY_RIGHT : Nat := 79
def HID_USAGE_KEY_LEFT : Nat := 80
def HID_USAGE_KEY_DOWN : Nat := 81
def HID_USAGE_KEY_UP : Nat := 82
def HID_USAGE_KEY_KP_ENTER : Nat := 88

/-- The keycodes handled by the special-key switch of
`hid_key_to_ansi_code`. -/
def specialKeycodes : List Nat :=
  [HID_USAGE_KEY_ENTER, HID_USAGE_KEY_KP_ENTER, HID_USAGE_KEY_BACKSPACE,
   HID_USAGE_KEY_TAB, HID_USAGE_KEY_ESC, HID_USAGE_KEY_UP, HID_USAGE_KEY_DOWN,
   HID_USAGE_KEY_RIGHT, HID_USAGE_KEY_LEFT, HID_USAGE_KEY_HOME,
   HID_USAGE_KEY_END, HID_USAGE_KEY_DELETE, HID_USAGE_KEY_PAGEUP,
   HID_USAGE_KEY_PAGEDOWN]

/-- `hid_key_to_ansi_code` (vc.c lines 464-550).  The keymap parameter
models the external collaborator `hid_map_key(keycode, modifiers & MOD_SHIFT,
keymap)`, whose return type is `uint8_t` (hence the reduction mod 256 at the
boundary; 0 means "no character").  The result list is the bytes written
into `buf`; its length is the returned count.  Byte arithmetic
`(char)(ch - sub + 1)` is modelled mod 256. -/
def hidKeyToAnsiCode (keycode : Nat) (modifiers : Modifiers)
    (keymap : Nat → Bool → Nat) (bufSize : Nat) : List Nat :=
  if bufSize ≠ 4 then []
  else
    let ch := keymap keycode modifiers.shift % 256
    if ch ≠ 0 then
      if modifiers.ctrl then
        let sub : Nat := if modifiers.shift then 65 else 97
        [(ch + 256 - sub + 1) % 256]
      else [ch]
    else if keycode = HID_USAGE_KEY_ENTER then [10]
    else if keycode = HID_USAGE_KEY_KP_ENTER then [10]
    else if keycode = HID_USAGE_KEY_BACKSPACE then [8]
    else if keycode = HID_USAGE_KEY_TAB then [9]
    else if keycode = HID_USAGE_KEY_ESC then [27]
    else if keycode = HID_USAGE_KEY_UP then [27, 91, 65]
    else if keycode = HID_USAGE_KEY_DOWN then [27, 91, 66]
    else if keycode = HID_USAGE_KEY_RIGHT then [27, 91, 67]
    else if keycode = HID_USAGE_KEY_LEFT then [27, 91, 68]
    else if keycode = HID_USAGE_KEY_HOME then [27, 91, 72]
    else if keycode = HID_USAGE_KEY_END then [27, 91, 70]
    else if keycode = HID_USAGE_KEY_DELETE then [27, 91, 51, 126]
    else if keycode = HID_USAGE_KEY_PAGEUP then [27, 91, 53, 126]
    else if keycode = HID_USAGE_KEY_PAGEDOWN then [27, 91, 54, 126]
    else []

/-- Console-management actions that `vc_handle_control_keys` can perform
(the spec's Control-Key Interceptor decision). -/
inductive VcAction where
  | switchTo (i : Nat)
  | toggleFullscreen
  | scrollViewport (delta : Int)
  | requestReboot
deriving DecidableEq, Repr

/-- Global context read by `vc_handle_control_keys`: whether `g_active_vc`
is non-null, `g_active_vc_index`, `g_vc_count`, and the active console's
row count. -/
structure CtrlCtx where
  activeExists : Bool
  activeIndex : Nat
  vcCount : Nat
  rows : Nat
deriving DecidableEq, Repr

/-- `vc_handle_control_keys` (vc.c lines 85-151) as the pure decision
function of the spec: `some action` when the key press is handled (the C
function returns true), `none` when it falls through to translation.
The TAB wraparound arithmetic on `unsigned` is modelled with `Nat`
subtraction; the `g_vc_count - 1` underflow can only occur with no consoles
registered, in which case no active console exists. -/
def vcHandleControlKeys (keycode : Nat) (modifiers : Modifiers)
    (ctx : CtrlCtx) : Option VcAction :=
  if HID_USAGE_KEY_F1 ≤ keycode ∧ keycode ≤ HID_USAGE_KEY_F10 then
    if modifiers.alt then some (.switchTo (keycode - HID_USAGE_KEY_F1)) else none
  else if keycode = HID_USAGE_KEY_F11 then
    if ctx.activeExists ∧ modifiers.alt then some .toggleFullscreen else none
  else if keycode = HID_USAGE_KEY_TAB then
    if modifiers.alt then
      if modifiers.shift then
        some (.switchTo (if ctx.activeIndex = 0 then ctx.vcCount - 1 else ctx.activeIndex - 1))
      else
        some (.switchTo (if ctx.activeIndex = ctx.vcCount - 1 then 0 else ctx.activeIndex + 1))
    else none
  else if keycode = HID_USAGE_KEY_UP then
    if modifiers.alt then some (.scrollViewport (-1)) else none
  else if keycode = HID_USAGE_KEY_DOWN then
    if modifiers.alt then some (.scrollViewport 1) else none
  else if keycode = HID_USAGE_KEY_PAGEUP then
    if modifiers.shift then some (.scrollViewport (-(ctx.rows / 2 : Nat))) else none
  else if keycode = HID_USAGE_KEY_PAGEDOWN then
    if modifiers.shift then some (.scrollViewport (ctx.rows / 2)) else none
  else if keycode = HID_USAGE_KEY_DELETE then
    if modifiers.ctrl ∧ modifiers.alt then some .requestReboot else none
  else none

/-- Modelled from the spec: the per-VC FIFO (`mx_hid_fifo_t`).  Its
implementation (`mx_hid_fifo_size` / `mx_hid_fifo_write` /
`mx_hid_fifo_read`) lives elsewhere in this repository, outside the sources
at hand; section 4.4 of the spec describes it as a fixed-capacity byte
queue whose write is atomic. -/
structure HidFifo where
  buf : List Nat
  capacity : Nat
deriving DecidableEq, Repr

/-- Modelled from the spec: `mx_hid_fifo_size`, the number of queued
bytes. -/
def mxHidFifoSize (f : HidFifo) : Nat := f.buf.length

/-- Modelled from the spec: `mx_hid_fifo_write`.  "attempt atomic enqueue;
if free space is less than the sequence length, enqueue nothing and return
a would-block/full indication — never truncate." -/
def mxHidFifoWrite (f : HidFifo) (seq : List Nat) : HidFifo × MxStatus :=
  if f.capacity - f.buf.length < seq.length then (f, .shouldWait)
  else ({ f with buf := f.buf ++ seq }, .ok)

/-- Modelled from the spec: `mx_hid_fifo_read`, draining up to `count`
bytes from the front of the queue. -/
def mxHidFifoRead (f : HidFifo) (count : Nat) : List Nat × HidFifo :=
  (f.buf.take count, { f with buf := f.buf.drop count })

/-- `vc_handle_key_press` (vc.c lines 153-176), acting on the active
console's FIFO, its VC_FLAG_RESETSCROLL flag and the DEV_STATE_READABLE
signal.  Result: (fifo, resetScroll flag, readable signal, reboot request
emitted).  When the Control-Key Interceptor handles the key the function
returns before touching the FIFO; a reboot request is emitted exactly for
the request-reboot action. -/
def vcHandleKeyPress (keycode : Nat) (modifiers : Modifiers)
    (keymap : Nat → Bool → Nat) (ctx : CtrlCtx) (fifo : HidFifo)
    (resetScroll readable : Bool) : HidFifo × Bool × Bool × Bool :=
  match vcHandleControlKeys keycode modifiers ctx with
  | some act => (fifo, resetScroll, readable, act = .requestReboot)
  | none =>
    let resetScroll2 := if mxHidFifoSize fifo = 0 then true else resetScroll
    let output := hidKeyToAnsiCode keycode modifiers keymap 4
    if 0 < output.length then
      ((mxHidFifoWrite fifo output).1, resetScroll2, true, false)
    else (fifo, resetScroll2, readable, false)

/-- Outcome of `vc_device_read`: a byte count (the drained bytes) or
ERR_SHOULD_WAIT. -/
inductive ReadOutcome where
  | bytes (l : List Nat)
  | wouldBlock
deriving DecidableEq, Repr

/-- `vc_device_read` (vc.c lines 552-565): drain up to `count` bytes under
the FIFO lock, clear DEV_STATE_READABLE when the FIFO became empty, and
turn a zero-byte result into ERR_SHOULD_WAIT.  Result: (fifo, readable
signal, outcome). -/
def vcDeviceRead (f : HidFifo) (count : Nat) (readable : Bool) :
    HidFifo × Bool × ReadOutcome :=
  let r := mxHidFifoRead f count
  let readable2 := if mxHidFifoSize r.2 = 0 then false else readable
  if r.1.length = 0 then (r.2, readable2, .wouldBlock)
  else (r.2, readable2, .bytes r.1)

/-- Battery charge state (`vc_battery_info_t.state`). -/
inductive BatteryState where
  | unknown
  | error
  | charging
  | notCharging
deriving DecidableEq, Repr

/-- `vc_battery_info_t`: state plus signed percentage (-1 sentinel). -/
structure VcBatteryInfo where
  state : BatteryState
  pct : Int
deriving DecidableEq, Repr

/-- Helper of the `atoi` model: accumulate decimal digits, stopping at the
first non-digit. -/
def digitsVal : List Nat → Nat → Nat
  | [], acc => acc
  | c :: rest, acc =>
    if 48 ≤ c ∧ c ≤ 57 then digitsVal rest (acc * 10 + (c - 48)) else acc

/-- Whether a byte is C whitespace (isspace in the "C" locale). -/
def isSpaceByte (c : Nat) : Bool := c = 32 || (9 ≤ c && c ≤ 13)

/-- Modelled from the spec: the libc `atoi` used by
`vc_battery_poll_thread` to "parse the remainder as an integer percentage":
skip whitespace, read an optional sign, then decimal digits (0 when there
are none). -/
def atoiModel : List Nat → Int
  | [] => 0
  | c :: rest =>
    if isSpaceByte c then atoiModel rest
    else if c = 45 then -(digitsVal rest 0 : Int)
    else if c = 43 then (digitsVal rest 0 : Int)
    else (digitsVal (c :: rest) 0 : Int)

/-- The parse step of `vc_battery_poll_thread` (vc.c lines 740-752),
classifying the string read from the battery device.  Byte 101 is the
character e, byte 99 is c.  (The empty case models a zero-length read,
which the C code would classify from stale buffer contents; the claims
only concern non-empty reads.) -/
def vcBatteryParse : List Nat → VcBatteryInfo
  | [] => ⟨.notCharging, 0⟩
  | c :: rest =>
    if c = 101 then ⟨.error, -1⟩
    else if c = 99 then ⟨.charging, atoiModel rest⟩
    else ⟨.notCharging, atoiModel (c :: rest)⟩

/-- `LOW_REPEAT_KEY_FREQUENCY_MICRO` (vc.c line 40). -/
def LOW_REPEAT_KEY_FREQUENCY_MICRO : Nat := 250000000

/-- `HIGH_REPEAT_KEY_FREQUENCY_MICRO` (vc.c line 41). -/
def HIGH_REPEAT_KEY_FREQUENCY_MICRO : Nat := 50000000

/-- The repeat-interval update performed by `vc_input_thread` on a
timed-out readability wait (vc.c lines 236-237):
`repeat_interval = repeat_interval * 3 / 4` followed by clamping below at
the high-frequency minimum.  All arithmetic is `uint64_t`; the quantities
involved are far below 2^64, so `Nat` arithmetic is exact. -/
def repeatStep (v : Nat) : Nat :=
  let v1 := v * 3 / 4
  if v1 < HIGH_REPEAT_KEY_FREQUENCY_MICRO then HIGH_REPEAT_KEY_FREQUENCY_MICRO
  else v1

/-- One registered console instance (`vc_device_t`), restricted to the
fields the registry operations touch: identity (the allocation is a fresh
object, modelled by a numeric id standing for the pointer), the `active`
bool, and the VC_FLAG_HASINPUT bit of `flags`. -/
structure Inst where
  id : Nat
  active : Bool
  hasInput : Bool
deriving DecidableEq, Repr

/-- The console registry: `g_vc_list` (in registration order),
`g_vc_count`, `g_active_vc` (a pointer, modelled as the pointed-to id) and
`g_active_vc_index`.  `g_vc_count` is `unsigned` in C; every reachable
transition keeps it equal to the list length, far below 2^32, so `Nat`
arithmetic is exact there (the lone `g_vc_count - 1` computed at count 0
is never observed: see `vcDeviceRelease`). -/
structure Registry where
  instances : List Inst
  count : Nat
  activeHandle : Option Nat
  activeIndex : Nat
deriving DecidableEq, Repr

/-- The initial registry state (static initializers of vc.c lines 53-56):
empty list, zero count, null active pointer, zero index. -/
def regInit : Registry := ⟨[], 0, none, 0⟩

/-- `__vc_set_active(dev, index)` (vc.c lines 331-339): clear the current
active instance's flag if any, mark `dev` active, point `g_active_vc` at
it, clear its VC_FLAG_HASINPUT, and record the index. -/
def setActiveFlags (s : Registry) (devId : Nat) (index : Nat) : Registry :=
  let l1 : List Inst := match s.activeHandle with
    | some a => s.instances.map fun (i : Inst) => if i.id = a then { i with active := false } else i
    | none => s.instances
  let l2 := l1.map fun (i : Inst) => if i.id = devId then { i with active := true, hasInput := false } else i
  { instances := l2, count := s.count, activeHandle := some devId, activeIndex := index }

/-- The scan of `vc_set_console_to_active`: count list entries until the
entry equal (as a pointer) to the target; yields the list length when the
target is not in the list. -/
def findPos (devId : Nat) : List Inst → Nat
  | [] => 0
  | d :: rest => if d.id = devId then 0 else findPos devId rest + 1

/-- `vc_set_console_to_active(dev)` (vc.c lines 341-361) for a non-null
`dev`: locate the device by scanning the list; ERR_INVALID_ARGS when the
scan count reaches `g_vc_count`; otherwise unconditionally `__vc_set_active`
and render.  Result: (state, status, whether vc_device_render was
called). -/
def vcSetConsoleToActive (s : Registry) (devId : Nat) : Registry × MxStatus × Bool :=
  let i := findPos devId s.instances
  if i = s.count then (s, .invalidArgs, false)
  else (setActiveFlags s devId i, .ok, true)

/-- `vc_set_active_console(console)` (vc.c lines 363-383): index bound
check against `g_vc_count`, linear scan to the instance at that position,
no-op success when it is already `g_active_vc`, otherwise
`__vc_set_active` and a render.  (The `none` branch of the lookup needs the
list to be shorter than `g_vc_count`, which no reachable state exhibits;
it is modelled as an error.) -/
def vcSetActiveConsole (s : Registry) (console : Nat) : Registry × MxStatus × Bool :=
  if s.count ≤ console then (s, .invalidArgs, false)
  else match s.instances.get? console with
    | none => (s, .invalidArgs, false)
    | some d =>
      if s.activeHandle = some d.id then (s, .ok, false)
      else (setActiveFlags s d.id console, .ok, true)

/-- The registry effect of `vc_root_open` (vc.c lines 649-687): append the
freshly allocated instance (inactive, flags clear) to the list tail,
increment the count, then `vc_set_active_console(0)` when there was no
active console (otherwise the existing active console is re-rendered,
which does not change the registry). -/
def vcRootOpenReg (s : Registry) (newId : Nat) : Registry :=
  let s1 : Registry :=
    { s with instances := s.instances ++ [{ id := newId, active := false, hasInput := false }],
             count := s.count + 1 }
  match s1.activeHandle with
  | none => (vcSetActiveConsole s1 0).1
  | some _ => s1

/-- The fixup scan of `vc_device_release` (vc.c lines 434-449), walking the
post-deletion list with a counter.  With a non-null active pointer it only
recomputes `g_active_vc_index` at the entry equal to `g_active_vc`; with a
null active pointer it performs `__vc_set_active(d, i)` at the entry whose
position equals `g_active_vc_index` (no active instance exists then, so
`__vc_set_active` reduces to activating `d`).  Result: (list, active
handle, active index). -/
def releaseScan : List Inst → Nat → Option Nat → Nat → List Inst × Option Nat × Nat
  | [], _, ah, ai => ([], ah, ai)
  | d :: rest, i, some a, ai =>
    if d.id = a then (d :: rest, some a, i)
    else
      let r := releaseScan rest (i + 1) (some a) ai
      (d :: r.1, r.2.1, r.2.2)
  | d :: rest, i, none, ai =>
    if i = ai then ({ d with active := true, hasInput := false } :: rest, some d.id, i)
    else
      let r := releaseScan rest (i + 1) none ai
      (d :: r.1, r.2.1, r.2.2)

/-- `vc_device_release` (vc.c lines 419-459): unlink the device, decrement
the count, and when the removed device was active, null the active pointer
and clamp `g_active_vc_index` to `g_vc_count - 1`; then run the fixup scan
and finally render the active console when one exists.  Result: (state,
whether vc_device_render was called).  The two `unsigned` decrements are
modelled with `Nat` subtraction: `g_vc_count -= 1` acts on a nonempty
registry (the released device is registered), and the clamp value
`g_vc_count - 1` at count 0 is written to `g_active_vc_index` while no
active instance exists, where its value (UINT_MAX in C) is never read. -/
def vcDeviceRelease (s : Registry) (vc : Inst) : Registry × Bool :=
  let rem := s.instances.eraseP fun i => i.id == vc.id
  let count1 := s.count - 1
  let ah1 : Option Nat := if vc.active then none else s.activeHandle
  let ai1 : Nat :=
    if vc.active then (if count1 ≤ s.activeIndex then count1 - 1 else s.activeIndex)
    else s.activeIndex
  let r := releaseScan rem 0 ah1 ai1
  ({ instances := r.1, count := count1, activeHandle := r.2.1, activeIndex := r.2.2 },
   r.2.1.isSome)

/-- The registry states reachable through the registry operations:
console-open (with a freshly allocated, hence unregistered, device),
`vc_set_console_to_active` on any device, `vc_set_active_console` on any
index, and console-close of a registered device. -/
inductive Reachable : Registry → Prop where
  | init : Reachable regInit
  | register {s : Registry} {newId : Nat} : Reachable s →
      newId ∉ s.instances.map Inst.id → Reachable (vcRootOpenReg s newId)
  | setActive {s : Registry} {devId : Nat} : Reachable s →
      Reachable (vcSetConsoleToActive s devId).1
  | setActiveByIndex {s : Registry} {console : Nat} : Reachable s →
      Reachable (vcSetActiveConsole s console).1
  | release {s : Registry} {vc : Inst} : Reachable s →
      vc ∈ s.instances → Reachable (vcDeviceRelease s vc).1

/-- The inductive registry invariant: the count mirrors the list length,
instance identities are pairwise distinct, a null active pointer means an
empty registry, and a non-null active pointer designates the instance at
`g_active_vc_index`, the only active one. -/
def Inv (s : Registry) : Prop :=
  s.count = s.instances.length ∧
  (s.instances.map Inst.id).Nodup ∧
  (s.activeHandle = none → s.instances = []) ∧
  ∀ a, s.activeHandle = some a →
    ∃ d, s.instances.get? s.activeIndex = some d ∧ d.id = a ∧ d.active = true ∧
      ∀ j d2, j ≠ s.activeIndex → s.instances.get? j = some d2 → d2.active = false

/-- The list remaining after `vc_device_release` unlinks `vc`. -/
def remAfter (s : Registry) (vc : Inst) : List Inst :=
  s.instances.eraseP fun i => i.id == vc.id

/-- The position the release fixup scan activates when the removed
instance was the active one: the pre-removal active index when the
remaining list still has such a position, else the last position. -/
def newActiveIdx (s : Registry) (vc : Inst) : Nat :=
  min s.activeIndex ((remAfter s vc).length - 1)

/-- The registry after one console-open on the initial state: a single
registered instance (id 0) that became active automatically. -/
def regW : Registry := vcRootOpenReg regInit 0

/-- The registry holding three consoles A, B, C (ids 0, 1, 2) with B
active at index 1: three console-opens followed by
`vc_set_active_console(1)`. -/
def sABC : Registry :=
  (vcSetActiveConsole (vcRootOpenReg (vcRootOpenReg (vcRootOpenReg regInit 0) 1) 2) 1).1

/-- C3: a keystroke write into a per-VC FIFO is all-or-nothing: with free
space below the sequence length nothing is enqueued and the status is the
would-block error, otherwise the whole sequence is appended; in every case
the buffer is either unchanged or extended by exactly the full sequence,
so no partial escape sequence ever appears. -/
theorem c3_fifo_write_atomic :
    (∀ f seq, f.capacity - f.buf.length < seq.length →
      mxHidFifoWrite f seq = (f, MxStatus.shouldWait)) ∧
    (∀ f seq, seq.length ≤ f.capacity - f.buf.length →
      mxHidFifoWrite f seq = ({ f with buf := f.buf ++ seq }, MxStatus.ok)) ∧
    (∀ f seq, (mxHidFifoWrite f seq).1.buf = f.buf ∨
      (mxHidFifoWrite f seq).1.buf = f.buf ++ seq) := by
  refine ⟨?_, ?_, ?_⟩
  · intro f seq h
    simp [mxHidFifoWrite, h]
  · intro f seq h
    simp [mxHidFifoWrite, Nat.not_lt_of_le h]
  · intro f seq
    by_cases h : f.capacity - f.buf.length < seq.length
    · left; simp [mxHidFifoWrite, h]
    · right; simp [mxHidFifoWrite, h]

/-- C3 witness: writing a 3-byte sequence into a FIFO with 2 free bytes
enqueues nothing and leaves the length unchanged; with enough room the
whole sequence goes in. -/
theorem c3_fifo_write_atomic_witness :
    mxHidFifoWrite ⟨[7, 8], 4⟩ [1, 2, 3] = (⟨[7, 8], 4⟩, MxStatus.shouldWait) ∧
    mxHidFifoWrite ⟨[7], 4⟩ [1, 2, 3] = (⟨[7, 1, 2, 3], 4⟩, MxStatus.ok) :=
  ⟨c3_fifo_write_atomic.1 ⟨[7, 8], 4⟩ [1, 2, 3] (by decide),
   c3_fifo_write_atomic.2.1 ⟨[7], 4⟩ [1, 2, 3] (by decide)⟩

/-- C5: the ANSI translator, called with the 4-byte buffer of
`vc_handle_key_press`: Up yields exactly ESC [ A; Delete with no
modifiers yields exactly ESC [ 3 ~; a keycode whose keymap character is
`ch` yields the single byte ch - 97 + 1 with CTRL set and SHIFT clear,
the single byte ch - 65 + 1 with CTRL and SHIFT set, and the byte `ch`
itself with CTRL clear; keycodes matching neither the keymap nor the
special-key table yield zero bytes. -/
theorem c5_ansi_translator :
    (∀ mods keymap, keymap HID_USAGE_KEY_UP (Modifiers.shift mods) % 256 = 0 →
      hidKeyToAnsiCode HID_USAGE_KEY_UP mods keymap 4 = [27, 91, 65]) ∧
    (∀ keymap, keymap HID_USAGE_KEY_DELETE false % 256 = 0 →
      hidKeyToAnsiCode HID_USAGE_KEY_DELETE noMods keymap 4 = [27, 91, 51, 126]) ∧
    (∀ kc mods keymap ch, Modifiers.ctrl mods = true → Modifiers.shift mods = false →
      keymap kc false % 256 = ch → 97 ≤ ch →
      hidKeyToAnsiCode kc mods keymap 4 = [ch - 97 + 1]) ∧
    (∀ kc mods keymap ch, Modifiers.ctrl mods = true → Modifiers.shift mods = true →
      keymap kc true % 256 = ch → 65 ≤ ch →
      hidKeyToAnsiCode kc mods keymap 4 = [ch - 65 + 1]) ∧
    (∀ kc mods keymap ch, Modifiers.ctrl mods = false →
      keymap kc (Modifiers.shift mods) % 256 = ch → 0 < ch →
      hidKeyToAnsiCode kc mods keymap 4 = [ch]) ∧
    (∀ kc mods keymap, keymap kc (Modifiers.shift mods) % 256 = 0 →
      kc ∉ specialKeycodes → hidKeyToAnsiCode kc mods keymap 4 = []) := by
  refine ⟨?_, ?_, ?_, ?_, ?_, ?_⟩
  · intro mods keymap h
    simp only [HID_USAGE_KEY_UP] at h
    simp [hidKeyToAnsiCode, h, HID_USAGE_KEY_UP, HID_USAGE_KEY_ENTER,
      HID_USAGE_KEY_KP_ENTER, HID_USAGE_KEY_BACKSPACE, HID_USAGE_KEY_TAB,
      HID_USAGE_KEY_ESC]
  · intro keymap h
    simp only [HID_USAGE_KEY_DELETE] at h
    simp [hidKeyToAnsiCode, noMods, Modifiers.shift, h, HID_USAGE_KEY_DELETE,
      HID_USAGE_KEY_ENTER, HID_USAGE_KEY_KP_ENTER, HID_USAGE_KEY_BACKSPACE,
      HID_USAGE_KEY_TAB, HID_USAGE_KEY_ESC, HID_USAGE_KEY_UP, HID_USAGE_KEY_DOWN,
      HID_USAGE_KEY_RIGHT, HID_USAGE_KEY_LEFT, HID_USAGE_KEY_HOME, HID_USAGE_KEY_END]
  · intro kc mods keymap ch hc hs hmap h97
    have hlt : ch < 256 := by omega
    have hne : ch ≠ 0 := by omega
    rw [hidKeyToAnsiCode]
    simp only [hs, hmap, hc]
    simp [hne]
    omega
  · intro kc mods keymap ch hc hs hmap h65
    have hlt : ch < 256 := by omega
    have hne : ch ≠ 0 := by omega
    rw [hidKeyToAnsiCode]
    simp only [hs, hmap, hc]
    simp [hne]
    omega
  · intro kc mods keymap ch hc hmap hpos
    have hne : ch ≠ 0 := by omega
    rw [hidKeyToAnsiCode]
    simp only [hmap, hc]
    simp [hne]
  · intro kc mods keymap hmap hmem
    simp only [specialKeycodes, List.mem_cons, List.not_mem_nil, or_false,
      not_or] at hmem
    rw [hidKeyToAnsiCode]
    simp only [hmap]
    simp [hmem.1, hmem.2.1, hmem.2.2.1, hmem.2.2.2.1, hmem.2.2.2.2.1,
      hmem.2.2.2.2.2.1, hmem.2.2.2.2.2.2.1, hmem.2.2.2.2.2.2.2.1,
      hmem.2.2.2.2.2.2.2.2.1, hmem.2.2.2.2.2.2.2.2.2.1,
      hmem.2.2.2.2.2.2.2.2.2.2.1, hmem.2.2.2.2.2.2.2.2.2.2.2.1,
      hmem.2.2.2.2.2.2.2.2.2.2.2.2.1, hmem.2.2.2.2.2.2.2.2.2.2.2.2.2]

/-- C5 witness: the translator table at concrete inputs, with a keymap
that maps keycode 20 to q (113) and Q (81). -/
theorem c5_ansi_translator_witness :
    hidKeyToAnsiCode HID_USAGE_KEY_UP noMods (fun _ _ => 0) 4 = [27, 91, 65] ∧
    hidKeyToAnsiCode HID_USAGE_KEY_DELETE noMods (fun _ _ => 0) 4 = [27, 91, 51, 126] ∧
    hidKeyToAnsiCode 20 ⟨false, false, false, false, true, false⟩
      (fun kc sh => if kc = 20 then (if sh then 81 else 113) else 0) 4 = [113 - 97 + 1] ∧
    hidKeyToAnsiCode 20 ⟨true, false, false, false, true, false⟩
      (fun kc sh => if kc = 20 then (if sh then 81 else 113) else 0) 4 = [81 - 65 + 1] ∧
    hidKeyToAnsiCode 20 ⟨false, false, false, false, false, false⟩
      (fun kc sh => if kc = 20 then (if sh then 81 else 113) else 0) 4 = [113] ∧
    hidKeyToAnsiCode 5 noMods (fun _ _ => 0) 4 = [] :=
  ⟨c5_ansi_translator.1 noMods (fun _ _ => 0) (by decide),
   c5_ansi_translator.2.1 (fun _ _ => 0) (by decide),
   c5_ansi_translator.2.2.1 20 ⟨false, false, false, false, true, false⟩
     (fun kc sh => if kc = 20 then (if sh then 81 else 113) else 0) 113
     (by decide) (by decide) (by decide) (by decide),
   c5_ansi_translator.2.2.2.1 20 ⟨true, false, false, false, true, false⟩
     (fun kc sh => if kc = 20 then (if sh then 81 else 113) else 0) 81
     (by decide) (by decide) (by decide) (by decide),
   c5_ansi_translator.2.2.2.2.1 20 ⟨false, false, false, false, false, false⟩
     (fun kc sh => if kc = 20 then (if sh then 81 else 113) else 0) 113
     (by decide) (by decide) (by decide),
   c5_ansi_translator.2.2.2.2.2 5 noMods (fun _ _ => 0) (by decide) (by decide)⟩

/-- C6: with CTRL and ALT both held, a Delete key press is handled by the
Control-Key Interceptor as a reboot request: `vc_handle_key_press` returns
before the translator runs, the FIFO and the readable signal are
untouched (zero bytes contributed), and the reboot request is emitted. -/
theorem c6_ctrl_alt_delete :
    ∀ mods ctx keymap fifo rs rd, Modifiers.ctrl mods = true →
      Modifiers.alt mods = true →
      vcHandleControlKeys HID_USAGE_KEY_DELETE mods ctx = some VcAction.requestReboot ∧
      vcHandleKeyPress HID_USAGE_KEY_DELETE mods keymap ctx fifo rs rd =
        (fifo, rs, rd, true) := by
  intro mods ctx keymap fifo rs rd hc ha
  have hck : vcHandleControlKeys HID_USAGE_KEY_DELETE mods ctx =
      some VcAction.requestReboot := by
    rw [vcHandleControlKeys]
    simp [HID_USAGE_KEY_DELETE, HID_USAGE_KEY_F1, HID_USAGE_KEY_F10,
      HID_USAGE_KEY_F11, HID_USAGE_KEY_TAB, HID_USAGE_KEY_UP, HID_USAGE_KEY_DOWN,
      HID_USAGE_KEY_PAGEUP, HID_USAGE_KEY_PAGEDOWN, hc, ha]
  refine ⟨hck, ?_⟩
  rw [vcHandleKeyPress, hck]
  simp

/-- C6 witness: CTRL+ALT+Delete at a concrete modifier state, context and
FIFO. -/
theorem c6_ctrl_alt_delete_witness :
    vcHandleControlKeys HID_USAGE_KEY_DELETE ⟨false, false, true, false, true, false⟩
      ⟨true, 0, 1, 10⟩ = some VcAction.requestReboot ∧
    vcHandleKeyPress HID_USAGE_KEY_DELETE ⟨false, false, true, false, true, false⟩
      (fun _ _ => 0) ⟨true, 0, 1, 10⟩ ⟨[1, 2], 4⟩ false false =
      (⟨[1, 2], 4⟩, false, false, true) :=
  c6_ctrl_alt_delete ⟨false, false, true, false, true, false⟩ ⟨true, 0, 1, 10⟩
    (fun _ _ => 0) ⟨[1, 2], 4⟩ false false (by decide) (by decide)

/-- C7 counterexample: 105468750 is the repeat interval reached from the
low-frequency start after three timeouts, and the interval after the next
timeout is 79101562 = floor(105468750 * 3 / 4), not the claimed
max(105468750 * 0.75, HIGH) = 79101562.5 — the code divides in integers. -/
theorem c7_repeat_accel_counterexample :
    repeatStep^[3] LOW_REPEAT_KEY_FREQUENCY_MICRO = 105468750 ∧
    (repeatStep 105468750 : ℚ) ≠
      max ((105468750 : ℚ) * (3 / 4)) (HIGH_REPEAT_KEY_FREQUENCY_MICRO : ℚ) := by
  constructor
  · decide
  · have h : repeatStep 105468750 = 79101562 := by decide
    rw [h, max_eq_left (by norm_num [HIGH_REPEAT_KEY_FREQUENCY_MICRO])]
    norm_num

/-- C7 amended: after a timeout the interval v becomes
max(floor(v * 3 / 4), HIGH) — equal to max(v * 0.75, HIGH) whenever v is a
multiple of 4, in particular at the low-frequency start; the interval
never increases while at or above HIGH, HIGH is a fixed point, and from
the low-frequency start the interval reaches HIGH after 6 timeouts and
stays there. -/
theorem c7_repeat_acceleration :
    (∀ v : Nat, repeatStep v = max (v * 3 / 4) HIGH_REPEAT_KEY_FREQUENCY_MICRO) ∧
    (∀ v : Nat, 4 ∣ v →
      (repeatStep v : ℚ) = max ((v : ℚ) * (3 / 4)) (HIGH_REPEAT_KEY_FREQUENCY_MICRO : ℚ)) ∧
    (repeatStep LOW_REPEAT_KEY_FREQUENCY_MICRO : ℚ) =
      max ((LOW_REPEAT_KEY_FREQUENCY_MICRO : ℚ) * (3 / 4))
        (HIGH_REPEAT_KEY_FREQUENCY_MICRO : ℚ) ∧
    (∀ v : Nat, HIGH_REPEAT_KEY_FREQUENCY_MICRO ≤ v → repeatStep v ≤ v) ∧
    repeatStep HIGH_REPEAT_KEY_FREQUENCY_MICRO = HIGH_REPEAT_KEY_FREQUENCY_MICRO ∧
    (∀ m : Nat, 6 ≤ m →
      repeatStep^[m] LOW_REPEAT_KEY_FREQUENCY_MICRO = HIGH_REPEAT_KEY_FREQUENCY_MICRO) := by
  have p1 : ∀ v : Nat, repeatStep v = max (v * 3 / 4) HIGH_REPEAT_KEY_FREQUENCY_MICRO := by
    intro v
    simp only [repeatStep, HIGH_REPEAT_KEY_FREQUENCY_MICRO]
    split
    · omega
    · omega
  have p2 : ∀ v : Nat, 4 ∣ v →
      (repeatStep v : ℚ) = max ((v : ℚ) * (3 / 4)) (HIGH_REPEAT_KEY_FREQUENCY_MICRO : ℚ) := by
    intro v hv
    obtain ⟨k, rfl⟩ := hv
    have h1 : 4 * k * 3 / 4 = 3 * k := by omega
    rw [p1, h1, Nat.cast_max]
    congr 1
    · push_cast
      ring
  have p5 : repeatStep HIGH_REPEAT_KEY_FREQUENCY_MICRO = HIGH_REPEAT_KEY_FREQUENCY_MICRO := by
    decide
  refine ⟨p1, p2, ?_, ?_, p5, ?_⟩
  · exact p2 LOW_REPEAT_KEY_FREQUENCY_MICRO ⟨62500000, by norm_num [LOW_REPEAT_KEY_FREQUENCY_MICRO]⟩
  · intro v hv
    simp only [repeatStep, HIGH_REPEAT_KEY_FREQUENCY_MICRO] at hv ⊢
    split
    · omega
    · omega
  · have hstay : ∀ k : Nat, repeatStep^[k] HIGH_REPEAT_KEY_FREQUENCY_MICRO =
        HIGH_REPEAT_KEY_FREQUENCY_MICRO := by
      intro k
      induction k with
      | zero => rfl
      | succ n ih => rw [Function.iterate_succ_apply', ih, p5]
    intro m hm
    obtain ⟨k, rfl⟩ := Nat.exists_eq_add_of_le hm
    rw [Nat.add_comm, Function.iterate_add_apply]
    have h6 : repeatStep^[6] LOW_REPEAT_KEY_FREQUENCY_MICRO =
        HIGH_REPEAT_KEY_FREQUENCY_MICRO := by decide
    rw [h6]
    exact hstay k

/-- C7 witness: the amended statement at concrete intervals. -/
theorem c7_repeat_acceleration_witness :
    (repeatStep 8 : ℚ) = max (((8 : Nat) : ℚ) * (3 / 4)) (HIGH_REPEAT_KEY_FREQUENCY_MICRO : ℚ) ∧
    repeatStep 50000001 ≤ 50000001 ∧
    repeatStep^[7] LOW_REPEAT_KEY_FREQUENCY_MICRO = HIGH_REPEAT_KEY_FREQUENCY_MICRO :=
  ⟨c7_repeat_acceleration.2.1 8 (by decide),
   c7_repeat_acceleration.2.2.2.1 50000001 (by decide),
   c7_repeat_acceleration.2.2.2.2.2 7 (by decide)⟩

/-- C8: the battery poller classifies the read string by its first byte:
e gives state error with percentage -1, c gives charging with the
remainder parsed as an integer, anything else gives not-charging with the
whole string parsed as an integer; in particular c42, e and 67 parse as
charging 42, error -1 and not-charging 67. -/
theorem c8_battery_parse :
    vcBatteryParse [99, 52, 50] = ⟨BatteryState.charging, 42⟩ ∧
    vcBatteryParse [101] = ⟨BatteryState.error, -1⟩ ∧
    vcBatteryParse [54, 55] = ⟨BatteryState.notCharging, 67⟩ ∧
    (∀ rest, vcBatteryParse (101 :: rest) = ⟨BatteryState.error, -1⟩) ∧
    (∀ rest, vcBatteryParse (99 :: rest) = ⟨BatteryState.charging, atoiModel rest⟩) ∧
    (∀ c rest, c ≠ 101 → c ≠ 99 →
      vcBatteryParse (c :: rest) = ⟨BatteryState.notCharging, atoiModel (c :: rest)⟩) := by
  refine ⟨by decide, by decide, by decide, ?_, ?_, ?_⟩
  · intro rest
    simp [vcBatteryParse]
  · intro rest
    simp [vcBatteryParse]
  · intro c rest h1 h2
    simp [vcBatteryParse, h1, h2]

/-- C8 witness: the general first-byte rules applied at the scenario
inputs. -/
theorem c8_battery_parse_witness :
    vcBatteryParse (101 :: [53]) = ⟨BatteryState.error, -1⟩ ∧
    vcBatteryParse (99 :: [52, 50]) = ⟨BatteryState.charging, atoiModel [52, 50]⟩ ∧
    vcBatteryParse (54 :: [55]) = ⟨BatteryState.notCharging, atoiModel (54 :: [55])⟩ :=
  ⟨c8_battery_parse.2.2.2.1 [53],
   c8_battery_parse.2.2.2.2.1 [52, 50],
   c8_battery_parse.2.2.2.2.2 54 [55] (by decide) (by decide)⟩

/-- C9: `vc_device_read` drains at most the requested count (exactly the
front of the FIFO), clears the readable signal when the FIFO ends up
empty, and reports ERR_SHOULD_WAIT instead of zero when nothing was
drained — in particular on an empty FIFO. -/
theorem c9_device_read :
    ∀ f count readable,
      (vcDeviceRead f count readable).1.buf = f.buf.drop count ∧
      (∀ l, (vcDeviceRead f count readable).2.2 = ReadOutcome.bytes l →
        l = f.buf.take count ∧ l.length ≤ count) ∧
      (mxHidFifoSize (vcDeviceRead f count readable).1 = 0 →
        (vcDeviceRead f count readable).2.1 = false) ∧
      (f.buf = [] → (vcDeviceRead f count readable).2.2 = ReadOutcome.wouldBlock) := by
  intro f count readable
  simp only [vcDeviceRead, mxHidFifoRead, mxHidFifoSize]
  split
  · refine ⟨rfl, ?_, ?_, ?_⟩
    · intro l hl
      cases hl
    · intro h
      simp [h]
    · intro h
      rfl
  · next hne =>
    refine ⟨rfl, ?_, ?_, ?_⟩
    · intro l hl
      cases hl
      exact ⟨rfl, by simp⟩
    · intro h
      simp [h]
    · intro h
      exact absurd (by simp [h]) hne

/-- C9 witness: a two-byte drain from a three-byte FIFO, and the
would-block outcome on an empty FIFO. -/
theorem c9_device_read_witness :
    (vcDeviceRead ⟨[1, 2, 3], 4⟩ 2 true).1.buf = [1, 2, 3].drop 2 ∧
    (([] : List Nat) = [] →
      (vcDeviceRead ⟨[], 4⟩ 2 true).2.2 = ReadOutcome.wouldBlock) :=
  ⟨(c9_device_read ⟨[1, 2, 3], 4⟩ 2 true).1,
   (c9_device_read ⟨[], 4⟩ 2 true).2.2.2⟩

/-- C10: the translator writes bytes only into a buffer of exactly 4
bytes; for every other buffer size it returns zero bytes, silently
dropping the key press, whatever the keycode, modifiers and keymap. -/
theorem c10_buffer_size_guard :
    ∀ keycode mods keymap bufSize, bufSize ≠ 4 →
      hidKeyToAnsiCode keycode mods keymap bufSize = [] := by
  intro keycode mods keymap bufSize h
  simp [hidKeyToAnsiCode, h]

/-- C10 witness: an Enter press with a 3-byte buffer produces nothing
(while the 4-byte buffer of the in-tree caller produces a newline). -/
theorem c10_buffer_size_guard_witness :
    hidKeyToAnsiCode HID_USAGE_KEY_ENTER noMods (fun _ _ => 0) 3 = [] :=
  c10_buffer_size_guard HID_USAGE_KEY_ENTER noMods (fun _ _ => 0) 3 (by decide)

/-- The scan counter of `vc_set_console_to_active` never exceeds the list
length. -/
theorem findPos_le_length (devId : Nat) (l : List Inst) : findPos devId l ≤ l.length := by
  induction l with
  | nil => simp [findPos]
  | cons d rest ih =>
    rw [findPos]
    split
    · simp
    · simpa using ih

/-- When the scan of `vc_set_console_to_active` stops early, it stops at
an entry with the searched identity. -/
theorem findPos_get? (devId : Nat) (l : List Inst) (h : findPos devId l < l.length) :
    ∃ d, l.get? (findPos devId l) = some d ∧ d.id = devId := by
  induction l with
  | nil => simp at h
  | cons d rest ih =>
    rw [findPos] at h ⊢
    by_cases hd : d.id = devId
    · exact ⟨d, by simp [hd], hd⟩
    · rw [if_neg hd] at h ⊢
      obtain ⟨d2, hd2, hd2id⟩ := ih (by simpa using h)
      exact ⟨d2, by simpa using hd2, hd2id⟩

/-- The scan of `vc_set_console_to_active` stops exactly at the first
position carrying the searched identity. -/
theorem findPos_eq (devId : Nat) (l : List Inst) (p : Nat) (d : Inst)
    (hp : l.get? p = some d) (hd : d.id = devId)
    (hb : ∀ j d2, j < p → l.get? j = some d2 → d2.id ≠ devId) :
    findPos devId l = p := by
  induction l generalizing p with
  | nil => simp at hp
  | cons x rest ih =>
    rw [findPos]
    cases p with
    | zero =>
      rw [List.get?_cons_zero] at hp
      cases hp
      simp [hd]
    | succ q =>
      have hx : x.id ≠ devId := hb 0 x (Nat.succ_pos q) List.get?_cons_zero
      rw [if_neg hx]
      rw [List.get?_cons_succ] at hp
      have := ih q hp (fun j d2 hj hg => hb (j + 1) d2 (by omega) (by simpa using hg))
      omega

/-- With pairwise-distinct identities, an identity determines the list
position. -/
theorem nodup_id_inj {l : List Inst} (hnd : (l.map Inst.id).Nodup) {i j : Nat}
    {di dj : Inst} (hi : l.get? i = some di) (hj : l.get? j = some dj)
    (heq : di.id = dj.id) : i = j := by
  have h1 : (l.map Inst.id).get? i = some di.id := by rw [List.get?_map, hi]; rfl
  have h2 : (l.map Inst.id).get? j = some dj.id := by rw [List.get?_map, hj]; rfl
  have hlt : i < (l.map Inst.id).length := (List.get?_eq_some.mp h1).1
  exact List.get?_inj hlt hnd (by rw [h1, h2, heq])

/-- A list whose only active entry sits at one position has exactly one
active entry. -/
theorem countP_active_eq_one (l : List Inst) (p : Nat) (d : Inst)
    (hp : l.get? p = some d) (hd : d.active = true)
    (hother : ∀ j d2, j ≠ p → l.get? j = some d2 → d2.active = false) :
    l.countP (fun i => i.active) = 1 := by
  induction l generalizing p with
  | nil => simp at hp
  | cons x rest ih =>
    rw [List.countP_cons]
    cases p with
    | zero =>
      rw [List.get?_cons_zero] at hp
      cases hp
      have hz : rest.countP (fun i => i.active) = 0 := by
        rw [List.countP_eq_zero]
        intro a ha
        obtain ⟨n, hn⟩ := List.mem_iff_get?.mp ha
        simpa using hother (n + 1) a (by omega) (by simpa using hn)
      simp [hz, hd]
    | succ q =>
      have hx : x.active = false := hother 0 x (by omega) List.get?_cons_zero
      rw [List.get?_cons_succ] at hp
      have := ih q hp (fun j d2 hj hg => hother (j + 1) d2 (by omega) (by simpa using hg))
      simp [this, hx]

/-- Setting a position of a list to the value it already holds changes
nothing. -/
theorem set_get?_self {α : Type} (l : List α) (n : Nat) (a : α)
    (h : l.get? n = some a) : l.set n a = l := by
  induction l generalizing n with
  | nil => rfl
  | cons x rest ih =>
    cases n with
    | zero =>
      rw [List.get?_cons_zero] at h
      cases h
      rfl
    | succ m =>
      rw [List.get?_cons_succ] at h
      simp [ih m h]

/-- Unlinking the entry at position `q` (the first one carrying its
identity): the remaining list keeps the earlier entries at their
positions and shifts the later ones down by one. -/
theorem eraseP_get? (l : List Inst) (q : Nat) (d : Inst) (hq : l.get? q = some d)
    (hb : ∀ j d2, j < q → l.get? j = some d2 → d2.id ≠ d.id) :
    (l.eraseP fun i => i.id == d.id).length = l.length - 1 ∧
    (∀ j, j < q → (l.eraseP fun i => i.id == d.id).get? j = l.get? j) ∧
    (∀ j, q ≤ j → (l.eraseP fun i => i.id == d.id).get? j = l.get? (j + 1)) := by
  induction l generalizing q with
  | nil => simp at hq
  | cons x rest ih =>
    cases q with
    | zero =>
      rw [List.get?_cons_zero] at hq
      cases hq
      rw [List.eraseP_cons_of_pos (by simp)]
      exact ⟨by simp, fun j hj => by omega, fun j _ => by simp⟩
    | succ q2 =>
      have hx : x.id ≠ d.id := hb 0 x (by omega) List.get?_cons_zero
      rw [List.get?_cons_succ] at hq
      obtain ⟨hlen, hbef, haft⟩ :=
        ih q2 hq (fun j d2 hj hg => hb (j + 1) d2 (by omega) (by simpa using hg))
      have hrl : 0 < rest.length := by
        have := (List.get?_eq_some.mp hq).1
        omega
      rw [List.eraseP_cons_of_neg (by simp [hx])]
      refine ⟨by simp [hlen]; omega, ?_, ?_⟩
      · intro j hj
        cases j with
        | zero => simp
        | succ j2 => simpa using hbef j2 (by omega)
      · intro j hj
        cases j with
        | zero => omega
        | succ j2 => simpa using haft j2 (by omega)

/-- The release fixup scan with a non-null active pointer only recomputes
the index: it leaves the list and the handle alone and stops at the first
entry carrying the active identity (keeping the incoming index when no
entry does). -/
theorem releaseScan_some (rem : List Inst) (i a ai : Nat) :
    releaseScan rem i (some a) ai =
      (rem, some a,
        if findPos a rem < rem.length then i + findPos a rem else ai) := by
  induction rem generalizing i with
  | nil => simp [releaseScan, findPos]
  | cons d rest ih =>
    rw [releaseScan, findPos]
    by_cases hd : d.id = a
    · simp [hd]
    · rw [if_neg hd, if_neg hd, ih (i + 1)]
      simp only [List.length_cons, Prod.mk.injEq, true_and]
      by_cases hlt : findPos a rest < rest.length
      · rw [if_pos hlt, if_pos (by omega)]
        omega
      · rw [if_neg hlt, if_neg (by omega)]

/-- The release fixup scan with a null active pointer, when the incoming
index designates a position of the list: it activates the entry found
there (clearing its pending-input flag), points the handle at it and
keeps the index. -/
theorem releaseScan_none_hit (rem : List Inst) (i ai : Nat) (h1 : i ≤ ai)
    (h2 : ai - i < rem.length) :
    ∃ d, rem.get? (ai - i) = some d ∧
      releaseScan rem i none ai =
        (rem.set (ai - i) { d with active := true, hasInput := false }, some d.id, ai) := by
  induction rem generalizing i with
  | nil => simp at h2
  | cons d rest ih =>
    by_cases hi : i = ai
    · refine ⟨d, ?_, ?_⟩
      · rw [hi]
        simp
      · rw [releaseScan, if_pos hi, hi]
        simp
    · have h1b : i + 1 ≤ ai := by omega
      have h2b : ai - (i + 1) < rest.length := by
        simp only [List.length_cons] at h2
        omega
      obtain ⟨d0, hd0, hscan⟩ := ih (i + 1) h1b h2b
      have hsub : ai - i = (ai - (i + 1)) + 1 := by omega
      refine ⟨d0, ?_, ?_⟩
      · rw [hsub, List.get?_cons_succ]
        exact hd0
      · rw [releaseScan, if_neg hi, hscan, hsub]
        simp

/-- The release fixup scan with a null active pointer, when the incoming
index designates no position of the list: everything is left alone and no
console becomes active. -/
theorem releaseScan_none_miss (rem : List Inst) (i ai : Nat)
    (h : ai < i ∨ rem.length ≤ ai - i) :
    releaseScan rem i none ai = (rem, none, ai) := by
  induction rem generalizing i with
  | nil => rfl
  | cons d rest ih =>
    have hi : i ≠ ai := by
      intro he
      subst he
      simp only [List.length_cons] at h
      omega
    rw [releaseScan, if_neg hi, ih (i + 1) (by simp only [List.length_cons] at h; omega)]

/-- `__vc_set_active` leaves the identities (and their order) unchanged. -/
theorem setActiveFlags_ids (s : Registry) (devId k : Nat) :
    (setActiveFlags s devId k).instances.map Inst.id = s.instances.map Inst.id := by
  rw [setActiveFlags]
  cases s.activeHandle with
  | none =>
    simp only [List.map_map]
    refine List.map_congr_left ?_
    intro d _
    by_cases hd : d.id = devId <;> simp [hd]
  | some a =>
    simp only [List.map_map]
    refine List.map_congr_left ?_
    intro d _
    dsimp only [Function.comp]
    split_ifs <;> rfl

/-- Entry-wise description of `__vc_set_active`: the previously active
entry is deactivated, the target entry is activated with its
pending-input flag cleared, everything else is untouched. -/
theorem setActiveFlags_get? (s : Registry) (devId k j : Nat) :
    (setActiveFlags s devId k).instances.get? j =
      (s.instances.get? j).map fun d =>
        let d1 := match s.activeHandle with
          | some a => if d.id = a then { d with active := false } else d
          | none => d
        if d1.id = devId then { d1 with active := true, hasInput := false } else d1 := by
  rw [setActiveFlags]
  cases s.activeHandle with
  | none => simp [List.get?_map]
  | some a =>
    simp only [List.get?_map, Option.map_map]
    cases s.instances.get? j with
    | none => rfl
    | some d => rfl

/-- Any invariant-satisfying registry lets only the instance designated by
the active handle be active. -/
theorem inv_hact (s : Registry) (h : Inv s) :
    ∀ j d2, s.instances.get? j = some d2 → d2.active = true →
      s.activeHandle = some d2.id := by
  obtain ⟨hcnt, hnd, hnone, hsome⟩ := h
  intro j d2 hj hact
  cases hah : s.activeHandle with
  | none =>
    rw [hnone hah] at hj
    simp at hj
  | some a =>
    obtain ⟨d, hd, hdid, hdact, hother⟩ := hsome a hah
    by_cases hje : j = s.activeIndex
    · subst hje
      rw [hj] at hd
      injection hd with he
      rw [← he] at hdid
      rw [hdid]
    · have := hother j d2 hje hj
      rw [this] at hact
      cases hact

/-- `__vc_set_active` applied to the entry at position `k` re-establishes
the registry invariant, given distinct identities, an accurate count, and
no active entry besides the one the handle designates. -/
theorem setActiveFlags_inv (s : Registry) (devId k : Nat) (d : Inst)
    (hcnt : s.count = s.instances.length)
    (hnd : (s.instances.map Inst.id).Nodup)
    (hk : s.instances.get? k = some d) (hid : d.id = devId)
    (hact : ∀ j d2, s.instances.get? j = some d2 → d2.active = true →
      s.activeHandle = some d2.id) :
    Inv (setActiveFlags s devId k) := by
  have hids := setActiveFlags_ids s devId k
  have hlen : (setActiveFlags s devId k).instances.length = s.instances.length := by
    have h1 := congrArg List.length hids
    simpa using h1
  refine ⟨?_, ?_, ?_, ?_⟩
  · have hc : (setActiveFlags s devId k).count = s.count := rfl
    rw [hc, hlen]
    exact hcnt
  · rw [hids]
    exact hnd
  · intro hno
    have hha : (setActiveFlags s devId k).activeHandle = some devId := rfl
    rw [hha] at hno
    cases hno
  · intro a2 ha2
    have hha : (setActiveFlags s devId k).activeHandle = some devId := rfl
    rw [hha] at ha2
    injection ha2 with ha3
    have hidx : (setActiveFlags s devId k).activeIndex = k := rfl
    rw [hidx]
    have hTd : (setActiveFlags s devId k).instances.get? k =
        some ⟨devId, true, false⟩ := by
      rw [setActiveFlags_get? s devId k k, hk]
      cases s.activeHandle with
      | none => simp [hid]
      | some a =>
        by_cases h1 : d.id = a
        · have h2 : a = devId := by omega
          simp [h1, hid, h2]
        · have h2 : devId ≠ a := by omega
          simp [h1, hid, h2]
    refine ⟨⟨devId, true, false⟩, hTd, ha3.symm ▸ rfl, rfl, ?_⟩
    intro j d2 hj hg
    rw [setActiveFlags_get? s devId k j] at hg
    obtain ⟨e, he, hTe⟩ := Option.map_eq_some'.mp hg
    have hne : e.id ≠ devId := by
      intro heq
      exact hj (nodup_id_inj hnd he hk (heq.trans hid.symm))
    rw [← hTe]
    cases hah : s.activeHandle with
    | none =>
      have hea : e.active = false := by
        by_contra hcon
        rw [Bool.not_eq_false] at hcon
        have h2 := hact j e he hcon
        rw [hah] at h2
        cases h2
      simp [hne, hea]
    | some a =>
      by_cases h1 : e.id = a
      · have h2 : a ≠ devId := by omega
        simp [h1, hne, h2]
      · have hea : e.active = false := by
          by_contra hcon
          rw [Bool.not_eq_false] at hcon
          have h2 := hact j e he hcon
          rw [hah] at h2
          injection h2 with hx
          exact h1 hx.symm
        simp [h1, hne, hea]

/-- The initial registry state satisfies the invariant. -/
theorem inv_init : Inv regInit := by
  refine ⟨rfl, by simp [regInit], fun _ => rfl, fun a ha => by cases ha⟩

/-- `vc_set_console_to_active` preserves the registry invariant. -/
theorem inv_setConsoleToActive (s : Registry) (devId : Nat) (h : Inv s) :
    Inv (vcSetConsoleToActive s devId).1 := by
  rw [vcSetConsoleToActive]
  by_cases hic : findPos devId s.instances = s.count
  · rw [if_pos hic]
    exact h
  · rw [if_neg hic]
    have hle := findPos_le_length devId s.instances
    have hlt : findPos devId s.instances < s.instances.length := by
      rw [h.1] at hic
      omega
    obtain ⟨d, hd, hdid⟩ := findPos_get? devId s.instances hlt
    exact setActiveFlags_inv s devId _ d h.1 h.2.1 hd hdid (inv_hact s h)

/-- `vc_set_active_console` preserves the registry invariant. -/
theorem inv_setActiveConsole (s : Registry) (console : Nat) (h : Inv s) :
    Inv (vcSetActiveConsole s console).1 := by
  rw [vcSetActiveConsole]
  by_cases hc : s.count ≤ console
  · rw [if_pos hc]
    exact h
  · rw [if_neg hc]
    have hlt : console < s.instances.length := by
      rw [← h.1]
      omega
    obtain ⟨d, hd⟩ : ∃ d, s.instances.get? console = some d := by
      cases hg : s.instances.get? console with
      | none =>
        have := List.get?_eq_none.mp hg
        omega
      | some d => exact ⟨d, rfl⟩
    rw [hd]
    dsimp only
    by_cases hh : s.activeHandle = some d.id
    · rw [if_pos hh]
      exact h
    · rw [if_neg hh]
      exact setActiveFlags_inv s d.id console d h.1 h.2.1 hd rfl (inv_hact s h)

/-- Console-open preserves the registry invariant when the new device is
fresh. -/
theorem inv_register (s : Registry) (newId : Nat) (h : Inv s)
    (hfresh : newId ∉ s.instances.map Inst.id) : Inv (vcRootOpenReg s newId) := by
  obtain ⟨l, c, ah, ai⟩ := s
  obtain ⟨hcnt, hnd, hnone, hsome⟩ := h
  dsimp only at hcnt hnd hnone hsome hfresh
  rw [vcRootOpenReg]
  cases ah with
  | some a =>
    obtain ⟨d, hd, hdid, hdact, hother⟩ := hsome a rfl
    have hlt : ai < l.length := (List.get?_eq_some.mp hd).1
    refine ⟨?_, ?_, ?_, ?_⟩
    · dsimp only
      rw [List.length_append]
      simp only [List.length_cons, List.length_nil]
      omega
    · dsimp only
      rw [List.map_append]
      simp only [List.map_cons, List.map_nil]
      refine (List.perm_append_singleton _ _).nodup_iff.mpr ?_
      rw [List.nodup_cons]
      exact ⟨hfresh, hnd⟩
    · intro hno
      cases hno
    · intro a2 ha2
      injection ha2 with haa
      subst haa
      dsimp only
      refine ⟨d, ?_, hdid, hdact, ?_⟩
      · rw [List.get?_append hlt]
        exact hd
      · intro j d2 hj hg
        by_cases hjl : j < l.length
        · rw [List.get?_append hjl] at hg
          exact hother j d2 hj hg
        · rw [List.get?_append_right (by omega)] at hg
          by_cases hj0 : j - l.length = 0
          · rw [hj0, List.get?_cons_zero] at hg
            injection hg with he
            rw [← he]
          · rw [show j - l.length = (j - l.length - 1) + 1 by omega,
              List.get?_cons_succ] at hg
            simp at hg
  | none =>
    have hempty : l = [] := hnone rfl
    subst hempty
    have hc0 : c = 0 := hcnt
    subst hc0
    show Inv (vcSetActiveConsole ⟨[⟨newId, false, false⟩], 1, none, ai⟩ 0).1
    have hred : (vcSetActiveConsole ⟨[⟨newId, false, false⟩], 1, none, ai⟩ 0).1 =
        ⟨[⟨newId, true, false⟩], 1, some newId, 0⟩ := by
      simp [vcSetActiveConsole, setActiveFlags]
    rw [hred]
    refine ⟨rfl, by simp, (by intro h2; cases h2), ?_⟩
    intro a2 ha2
    injection ha2 with haa
    refine ⟨⟨newId, true, false⟩, by simp, (by rw [haa]), rfl, ?_⟩
    intro j d2 hj hg
    cases j with
    | zero => exact absurd rfl hj
    | succ m =>
      rw [List.get?_cons_succ] at hg
      simp at hg

/-- The release fixup scan as invoked (from counter 0) with a null active
pointer and an in-range index. -/
theorem releaseScan_none_hit0 (rem : List Inst) (ai : Nat) (h2 : ai < rem.length) :
    ∃ d, rem.get? ai = some d ∧
      releaseScan rem 0 none ai =
        (rem.set ai { d with active := true, hasInput := false }, some d.id, ai) := by
  obtain ⟨d, hd, hs⟩ := releaseScan_none_hit rem 0 ai (Nat.zero_le ai) (by simpa using h2)
  rw [Nat.sub_zero] at hd hs
  exact ⟨d, hd, hs⟩

/-- Console-close of a registered device preserves the registry
invariant. -/
theorem inv_release (s : Registry) (vc : Inst) (h : Inv s) (hm : vc ∈ s.instances) :
    Inv (vcDeviceRelease s vc).1 := by
  obtain ⟨hcnt, hnd, hnone, hsome⟩ := h
  obtain ⟨q, hq⟩ := List.mem_iff_get?.mp hm
  cases hah : s.activeHandle with
  | none =>
    rw [hnone hah] at hq
    simp at hq
  | some a =>
    obtain ⟨dA, hdA, hdAid, hdAact, hother⟩ := hsome a hah
    have hPlt : s.activeIndex < s.instances.length := (List.get?_eq_some.mp hdA).1
    rw [vcDeviceRelease]
    by_cases hvact : vc.active = true
    · -- the removed device is the active one
      have hqp : q = s.activeIndex := by
        by_contra hne
        have h2 := hother q vc hne hq
        rw [hvact] at h2
        cases h2
      subst hqp
      have hb : ∀ j d2, j < s.activeIndex → s.instances.get? j = some d2 →
          d2.id ≠ vc.id := by
        intro j d2 hj hg heq
        exact absurd (nodup_id_inj hnd hg hq heq) (by omega)
      obtain ⟨hlen, hbef, haft⟩ := eraseP_get? s.instances s.activeIndex vc hq hb
      set rem := s.instances.eraseP (fun i => i.id == vc.id) with hrem
      rw [if_pos hvact, if_pos hvact]
      have hndrem : (rem.map Inst.id).Nodup :=
        List.Nodup.sublist (List.Sublist.map Inst.id (List.eraseP_sublist s.instances)) hnd
      have hlen2 : rem.length = s.instances.length - 1 := hlen
      by_cases hn0 : rem.length = 0
      · have hremnil : rem = [] := List.length_eq_zero.mp hn0
        have hc1 : s.count - 1 = 0 := by omega
        rw [hremnil]
        simp only [releaseScan]
        refine ⟨?_, by simp, fun _ => rfl, fun a2 ha2 => by cases ha2⟩
        dsimp only
        simp [hc1]
      · have hailt : (if s.count - 1 ≤ s.activeIndex then s.count - 1 - 1 else s.activeIndex) <
            rem.length := by
          split <;> omega
        obtain ⟨d0, hd0, hscan⟩ := releaseScan_none_hit0 rem _ hailt
        rw [hscan]
        have hreminact : ∀ j d2, rem.get? j = some d2 → d2.active = false := by
          intro j d2 hg
          by_cases hj : j < s.activeIndex
          · rw [hbef j hj] at hg
            exact hother j d2 (by omega) hg
          · rw [haft j (by omega)] at hg
            exact hother (j + 1) d2 (by omega) hg
        have hidset : ((rem.set (if s.count - 1 ≤ s.activeIndex then s.count - 1 - 1 else s.activeIndex)
            { d0 with active := true, hasInput := false }).map Inst.id) = rem.map Inst.id := by
          rw [List.map_set]
          apply set_get?_self
          rw [List.get?_map, hd0]
          rfl
        refine ⟨?_, ?_, ?_, ?_⟩
        · dsimp only
          rw [List.length_set]
          omega
        · dsimp only
          rw [hidset]
          exact hndrem
        · intro hno
          cases hno
        · intro a2 ha2
          injection ha2 with haa
          dsimp only
          refine ⟨{ d0 with active := true, hasInput := false }, ?_, ?_, rfl, ?_⟩
          · rw [List.get?_set_eq, hd0]
            rfl
          · exact haa
          · intro j d2 hj hg
            rw [List.get?_set_ne _ _ (by omega)] at hg
            exact hreminact j d2 hg
    · -- the removed device is not the active one
      have hvaf : vc.active = false := by
        revert hvact
        cases vc.active <;> simp
      have hqp : q ≠ s.activeIndex := by
        intro he
        rw [he] at hq
        have h2 := hq.symm.trans hdA
        injection h2 with h3
        rw [h3, hdAact] at hvaf
        cases hvaf
      have hb : ∀ j d2, j < q → s.instances.get? j = some d2 → d2.id ≠ vc.id := by
        intro j d2 hj hg heq
        exact absurd (nodup_id_inj hnd hg hq heq) (by omega)
      obtain ⟨hlen, hbef, haft⟩ := eraseP_get? s.instances q vc hq hb
      set rem := s.instances.eraseP (fun i => i.id == vc.id) with hrem
      rw [if_neg (by simp [hvaf]), if_neg (by simp [hvaf]), hah, releaseScan_some]
      have hndrem : (rem.map Inst.id).Nodup :=
        List.Nodup.sublist (List.Sublist.map Inst.id (List.eraseP_sublist s.instances)) hnd
      have hlen2 : rem.length = s.instances.length - 1 := hlen
      have hlq : q < s.instances.length := (List.get?_eq_some.mp hq).1
      by_cases hpq : s.activeIndex < q
      · have hremp : rem.get? s.activeIndex = some dA := by
          rw [hbef _ hpq]
          exact hdA
        have hfp : findPos a rem = s.activeIndex := by
          apply findPos_eq a rem s.activeIndex dA hremp hdAid
          intro j d2 hj hg heq
          have hjq : j < q := by omega
          rw [hbef j hjq] at hg
          exact absurd (nodup_id_inj hnd hg hdA (heq.trans hdAid.symm)) (by omega)
        have hfpl : findPos a rem < rem.length := by omega
        rw [if_pos hfpl, hfp]
        refine ⟨(by dsimp only; omega), hndrem, (by intro hno; cases hno), ?_⟩
        intro a2 ha2
        injection ha2 with haa
        dsimp only
        simp only [Nat.zero_add]
        refine ⟨dA, hremp, haa ▸ hdAid, hdAact, ?_⟩
        intro j d2 hj hg
        by_cases hjq : j < q
        · rw [hbef j hjq] at hg
          exact hother j d2 (by omega) hg
        · rw [haft j (by omega)] at hg
          exact hother (j + 1) d2 (by omega) hg
      · have hqlt : q < s.activeIndex := by omega
        have hremp : rem.get? (s.activeIndex - 1) = some dA := by
          rw [haft _ (by omega), show s.activeIndex - 1 + 1 = s.activeIndex by omega]
          exact hdA
        have hfp : findPos a rem = s.activeIndex - 1 := by
          apply findPos_eq a rem _ dA hremp hdAid
          intro j d2 hj hg heq
          by_cases hjq : j < q
          · rw [hbef j hjq] at hg
            exact absurd (nodup_id_inj hnd hg hdA (heq.trans hdAid.symm)) (by omega)
          · rw [haft j (by omega)] at hg
            have h4 := nodup_id_inj hnd hg hdA (heq.trans hdAid.symm)
            omega
        have hfpl : findPos a rem < rem.length := by omega
        rw [if_pos hfpl, hfp]
        refine ⟨(by dsimp only; omega), hndrem, (by intro hno; cases hno), ?_⟩
        intro a2 ha2
        injection ha2 with haa
        dsimp only
        simp only [Nat.zero_add]
        refine ⟨dA, hremp, haa ▸ hdAid, hdAact, ?_⟩
        intro j d2 hj hg
        by_cases hjq : j < q
        · rw [hbef j hjq] at hg
          exact hother j d2 (by omega) hg
        · rw [haft j (by omega)] at hg
          exact hother (j + 1) d2 (by omega) hg

/-- Every reachable registry state satisfies the invariant. -/
theorem reachable_inv (s : Registry) (h : Reachable s) : Inv s := by
  induction h with
  | init => exact inv_init
  | register hr hfresh ih => exact inv_register _ _ ih hfresh
  | setActive hr ih => exact inv_setConsoleToActive _ _ ih
  | setActiveByIndex hr ih => exact inv_setActiveConsole _ _ ih
  | release hr hm ih => exact inv_release _ _ ih hm

/-- Releasing the active device from a registry with at least two
instances: the remaining list keeps its order, and the entry found at
min(pre-removal index, new count - 1) becomes the new active one, with a
render of it. -/
theorem release_active_spec (s : Registry) (vc : Inst) (h : Inv s)
    (hm : vc ∈ s.instances) (hvact : vc.active = true) (hcount : 2 ≤ s.count) :
    ∃ d, (remAfter s vc).get? (newActiveIdx s vc) = some d ∧
      vcDeviceRelease s vc =
        ({ instances := (remAfter s vc).set (newActiveIdx s vc)
             { d with active := true, hasInput := false },
           count := s.count - 1,
           activeHandle := some d.id,
           activeIndex := newActiveIdx s vc }, true) := by
  obtain ⟨hcnt, hnd, hnone, hsome⟩ := h
  obtain ⟨q, hq⟩ := List.mem_iff_get?.mp hm
  cases hah : s.activeHandle with
  | none =>
    rw [hnone hah] at hq
    simp at hq
  | some a =>
    obtain ⟨dA, hdA, hdAid, hdAact, hother⟩ := hsome a hah
    have hqp : q = s.activeIndex := by
      by_contra hne
      have h3 := hother q vc hne hq
      rw [hvact] at h3
      cases h3
    subst hqp
    have hPlt : s.activeIndex < s.instances.length := (List.get?_eq_some.mp hq).1
    have hb : ∀ j d2, j < s.activeIndex → s.instances.get? j = some d2 →
        d2.id ≠ vc.id := by
      intro j d2 hj hg heq
      exact absurd (nodup_id_inj hnd hg hq heq) (by omega)
    obtain ⟨hlen, hbef, haft⟩ := eraseP_get? s.instances s.activeIndex vc hq hb
    simp only [remAfter, newActiveIdx]
    rw [vcDeviceRelease]
    rw [if_pos hvact, if_pos hvact]
    have hmin : (if s.count - 1 ≤ s.activeIndex then s.count - 1 - 1 else s.activeIndex) =
        min s.activeIndex ((s.instances.eraseP fun i => i.id == vc.id).length - 1) := by
      split <;> omega
    have hailt : (if s.count - 1 ≤ s.activeIndex then s.count - 1 - 1 else s.activeIndex) <
        (s.instances.eraseP fun i => i.id == vc.id).length := by
      split <;> omega
    obtain ⟨d0, hd0, hscan⟩ := releaseScan_none_hit0 _ _ hailt
    rw [hscan, ← hmin]
    exact ⟨d0, hd0, by simp⟩

/-- C1: every registry state reachable through register, set_active,
set_active_by_index and unregister satisfies: zero count means no active
instance and a null active handle; a positive count means the active index
is in range, exactly one registered instance is active, and the active
handle points to the instance at the active index, which is the only
active one. -/
theorem c1_registry_invariant (s : Registry) (h : Reachable s) :
    (s.count = 0 → s.activeHandle = none ∧ ∀ i ∈ s.instances, i.active = false) ∧
    (0 < s.count →
      s.activeIndex < s.count ∧
      s.instances.countP (fun i => i.active) = 1 ∧
      s.activeHandle ≠ none ∧
      (s.instances.get? s.activeIndex).map Inst.id = s.activeHandle ∧
      ∀ i ∈ s.instances, i.active = true → some i.id = s.activeHandle) := by
  obtain ⟨hcnt, hnd, hnone, hsome⟩ := reachable_inv s h
  constructor
  · intro hc0
    have hempty : s.instances = [] := by
      refine List.length_eq_zero.mp ?_
      omega
    cases hah : s.activeHandle with
    | none =>
      refine ⟨rfl, ?_⟩
      intro i hi
      rw [hempty] at hi
      cases hi
    | some a =>
      obtain ⟨d, hd, hrest⟩ := hsome a hah
      rw [hempty] at hd
      simp at hd
  · intro hcpos
    cases hah : s.activeHandle with
    | none =>
      rw [hnone hah] at hcnt
      simp at hcnt
      omega
    | some a =>
      obtain ⟨d, hd, hdid, hdact, hother⟩ := hsome a hah
      have hlt : s.activeIndex < s.instances.length := (List.get?_eq_some.mp hd).1
      refine ⟨by omega, ?_, by simp, ?_, ?_⟩
      · exact countP_active_eq_one s.instances s.activeIndex d hd hdact hother
      · rw [hd]
        simp [hdid]
      · intro i hi hia
        obtain ⟨n, hn⟩ := List.mem_iff_get?.mp hi
        by_cases hne : n = s.activeIndex
        · subst hne
          have h3 := Option.some.inj (hn.symm.trans hd)
          rw [h3, hdid]
        · have h3 := hother n i hne hn
          rw [h3] at hia
          cases hia

/-- C1 witness: the invariant at the reachable one-console registry. -/
theorem c1_registry_invariant_witness :
    (regW.count = 0 → regW.activeHandle = none ∧ ∀ i ∈ regW.instances, i.active = false) ∧
    (0 < regW.count →
      regW.activeIndex < regW.count ∧
      regW.instances.countP (fun i => i.active) = 1 ∧
      regW.activeHandle ≠ none ∧
      (regW.instances.get? regW.activeIndex).map Inst.id = regW.activeHandle ∧
      ∀ i ∈ regW.instances, i.active = true → some i.id = regW.activeHandle) :=
  c1_registry_invariant regW (Reachable.register Reachable.init (by decide))

/-- C2: unregistering the active instance of a registry that keeps other
instances makes the instance found at the pre-removal active index of the
remaining list active — or the last remaining instance when no entry has
that index (newActiveIdx is exactly that position); the remaining list
keeps registration order, the count drops by one, and the new active
instance is rendered. -/
theorem c2_removal_policy (s : Registry) (vc : Inst) (h : Reachable s)
    (hm : vc ∈ s.instances) (hvact : vc.active = true) (hcount : 2 ≤ s.count) :
    ∃ d, (remAfter s vc).get? (newActiveIdx s vc) = some d ∧
      (vcDeviceRelease s vc).1.activeHandle = some d.id ∧
      (vcDeviceRelease s vc).1.activeIndex = newActiveIdx s vc ∧
      (vcDeviceRelease s vc).1.instances.get? (newActiveIdx s vc) =
        some { d with active := true, hasInput := false } ∧
      (vcDeviceRelease s vc).1.instances.map Inst.id = (remAfter s vc).map Inst.id ∧
      (vcDeviceRelease s vc).1.count = s.count - 1 ∧
      (vcDeviceRelease s vc).2 = true := by
  obtain ⟨d, hd, hrel⟩ := release_active_spec s vc (reachable_inv s h) hm hvact hcount
  refine ⟨d, hd, ?_, ?_, ?_, ?_, ?_, ?_⟩
  · rw [hrel]
  · rw [hrel]
  · rw [hrel]
    dsimp only
    rw [List.get?_set_eq, hd]
    rfl
  · rw [hrel]
    dsimp only
    rw [List.map_set]
    apply set_get?_self
    rw [List.get?_map, hd]
    rfl
  · rw [hrel]
  · rw [hrel]

/-- C2 witness: in the registry [A, B, C] with B active at index 1,
unregistering B makes C (found at index 1 of the remaining [A, C]) the
active instance. -/
theorem c2_removal_policy_witness :
    (vcDeviceRelease sABC ⟨1, true, false⟩).1.activeHandle = some 2 ∧
    (∃ d, (remAfter sABC ⟨1, true, false⟩).get? (newActiveIdx sABC ⟨1, true, false⟩) =
        some d ∧
      (vcDeviceRelease sABC ⟨1, true, false⟩).1.activeHandle = some d.id ∧
      (vcDeviceRelease sABC ⟨1, true, false⟩).1.activeIndex =
        newActiveIdx sABC ⟨1, true, false⟩ ∧
      (vcDeviceRelease sABC ⟨1, true, false⟩).1.instances.get?
          (newActiveIdx sABC ⟨1, true, false⟩) =
        some { d with active := true, hasInput := false } ∧
      (vcDeviceRelease sABC ⟨1, true, false⟩).1.instances.map Inst.id =
        (remAfter sABC ⟨1, true, false⟩).map Inst.id ∧
      (vcDeviceRelease sABC ⟨1, true, false⟩).1.count = sABC.count - 1 ∧
      (vcDeviceRelease sABC ⟨1, true, false⟩).2 = true) :=
  ⟨by decide,
   c2_removal_policy sABC ⟨1, true, false⟩
     (Reachable.setActiveByIndex
       (Reachable.register
         (Reachable.register (Reachable.register Reachable.init (by decide)) (by decide))
         (by decide)))
     (by decide) rfl (by decide)⟩

/-- C4 counterexample: in the reachable one-console registry whose single
instance (the target of set_active) is already active,
`vc_set_console_to_active` returns success but still triggers a full
render — the function has no already-active check, so "no render" is
false. -/
theorem c4_idempotence_counterexample :
    (vcSetConsoleToActive regW 0).2.1 = MxStatus.ok ∧
    (vcSetConsoleToActive regW 0).2.2 = true := by
  decide

/-- C4 amended: calling `vc_set_console_to_active` on the already-active
instance returns success and performs no Active/Inactive transition (the
per-instance active flags, the active handle, the active index and the
count are unchanged), but it clears the target's has-pending-input flag
and does trigger a full render; the index-based
`vc_set_active_console`, by contrast, is a complete no-op with no render
when it resolves to the already-active instance. -/
theorem c4_set_active_on_active (s : Registry) (x : Nat) (h : Reachable s)
    (hx : s.activeHandle = some x) :
    ((vcSetConsoleToActive s x).1.activeHandle = s.activeHandle ∧
     (vcSetConsoleToActive s x).1.activeIndex = s.activeIndex ∧
     (vcSetConsoleToActive s x).1.count = s.count ∧
     (vcSetConsoleToActive s x).1.instances.map (fun i => (i.id, i.active)) =
       s.instances.map (fun i => (i.id, i.active)) ∧
     (vcSetConsoleToActive s x).2.1 = MxStatus.ok ∧
     (vcSetConsoleToActive s x).2.2 = true) ∧
    vcSetActiveConsole s s.activeIndex = (s, MxStatus.ok, false) := by
  obtain ⟨hcnt, hnd, hnone, hsome⟩ := reachable_inv s h
  obtain ⟨d, hd, hdid, hdact, hother⟩ := hsome x hx
  have hlt : s.activeIndex < s.instances.length := (List.get?_eq_some.mp hd).1
  have hfp : findPos x s.instances = s.activeIndex := by
    apply findPos_eq x s.instances s.activeIndex d hd hdid
    intro j d2 hj hg heq
    exact absurd (nodup_id_inj hnd hg hd (heq.trans hdid.symm)) (by omega)
  have hset : vcSetConsoleToActive s x =
      (setActiveFlags s x s.activeIndex, MxStatus.ok, true) := by
    rw [vcSetConsoleToActive, hfp, if_neg (by omega)]
  constructor
  · rw [hset]
    refine ⟨hx.symm, rfl, rfl, ?_, rfl, rfl⟩
    apply List.ext_get?
    intro n
    rw [List.get?_map, List.get?_map, setActiveFlags_get? s x s.activeIndex n, hx]
    cases hg : s.instances.get? n with
    | none => rfl
    | some e =>
      simp only [Option.map_some']
      by_cases he : e.id = x
      · have hn : n = s.activeIndex := nodup_id_inj hnd hg hd (he.trans hdid.symm)
        have hed : e = d := by
          rw [hn] at hg
          exact Option.some.inj (hg.symm.trans hd)
        subst hed
        simp [he, hdact]
      · simp [he]
  · rw [vcSetActiveConsole, if_neg (by omega), hd]
    dsimp only
    rw [if_pos (by rw [hx, hdid])]

/-- C4 witness: the amended statement at the reachable one-console
registry with its instance active. -/
theorem c4_set_active_on_active_witness :
    ((vcSetConsoleToActive regW 0).1.activeHandle = regW.activeHandle ∧
     (vcSetConsoleToActive regW 0).1.activeIndex = regW.activeIndex ∧
     (vcSetConsoleToActive regW 0).1.count = regW.count ∧
     (vcSetConsoleToActive regW 0).1.instances.map (fun i => (i.id, i.active)) =
       regW.instances.map (fun i => (i.id, i.active)) ∧
     (vcSetConsoleToActive regW 0).2.1 = MxStatus.ok ∧
     (vcSetConsoleToActive regW 0).2.2 = true) ∧
    vcSetActiveConsole regW regW.activeIndex = (regW, MxStatus.ok, false) :=
  c4_set_active_on_active regW 0 (Reachable.register Reachable.init (by decide))
    (by decide)

end Vc
